import Mathlib

/-!
# Verification of the conversion-extraction pipeline

Shallow embedding of the core scraping/extraction logic of the repository
(`main.py`, `schemas.py`) and proofs about the claims of its specification.

Embedding conventions:
* Python strings are Lean `String`s (sequences of unicode scalar values, matching
  Python's code-point model; `len` is `String.length`).  The Python string
  operations used by the code (`str.strip`, `str.title`, `re.sub("\s+", " ", ·)`,
  `str.replace`) are embedded for the ASCII character range, which covers every
  character the rate patterns can match (`[A-Za-z \-]`, digits, ASCII spacing).
* Python `float` is embedded as `ℚ` (the extracted amounts are finite decimals
  and all claim-relevant arithmetic is exact at these magnitudes).
* `BeautifulSoup(html, "html.parser")` is a collaborator: the embedding takes the
  parsed document (a tree of element/text nodes) instead of the raw HTML string,
  matching the spec's treatment of HTML parsing as an external fetch/parse step.
* The two regular expressions `p_eq` and `p_ratio` of `extract_conversions` are
  hand-compiled into backtracking matchers whose outcome lists enumerate the
  alternatives in exactly Python's backtracking priority order (greedy
  quantifiers longest-first, ordered alternation, leftmost search position
  first), so `search` returns precisely the match Python's `re.search` returns.
-/

/-! ## Python string primitives (ASCII model) -/

/-- Python `\s` / `str.strip` whitespace characters (ASCII range): space, tab,
newline, carriage return, vertical tab, form feed. -/
def isSpacePy (c : Char) : Bool :=
  decide (c.toNat = 32 ∨ c.toNat = 9 ∨ c.toNat = 10 ∨ c.toNat = 13 ∨ c.toNat = 11 ∨ c.toNat = 12)

/-- ASCII letter `A`-`Z` or `a`-`z` (the only cased characters appearing in
rate-pattern names). -/
def isAlphaAscii (c : Char) : Bool :=
  decide ((65 ≤ c.toNat ∧ c.toNat ≤ 90) ∨ (97 ≤ c.toNat ∧ c.toNat ≤ 122))

/-- ASCII lower-casing, identity elsewhere. -/
def lowerA (c : Char) : Char :=
  if 65 ≤ c.toNat ∧ c.toNat ≤ 90 then Char.ofNat (c.toNat + 32) else c

/-- ASCII upper-casing, identity elsewhere. -/
def upperA (c : Char) : Char :=
  if 97 ≤ c.toNat ∧ c.toNat ≤ 122 then Char.ofNat (c.toNat - 32) else c

/-- Python `str.strip()` on a character list. -/
def pyStripL (l : List Char) : List Char :=
  ((l.dropWhile isSpacePy).reverse.dropWhile isSpacePy).reverse

/-- Python `str.strip()`. -/
def pyStrip (s : String) : String := ⟨pyStripL s.toList⟩

/-- Embeds `re.sub(r"\s+", " ", ·)` : collapse every maximal whitespace run to a single
space.  `prev` records whether the previous character belonged to a run. -/
def collapseWsAux : List Char → Bool → List Char
  | [], _ => []
  | c :: r, prev =>
    if isSpacePy c then
      if prev then collapseWsAux r true else ' ' :: collapseWsAux r true
    else c :: collapseWsAux r false

/-- Python `str.title()` (ASCII): a letter is uppercased when the previous
character is not a letter (word boundaries are all non-cased characters,
including hyphens), lowercased otherwise. -/
def pyTitleAux : List Char → Bool → List Char
  | [], _ => []
  | c :: r, prevCased =>
    if isAlphaAscii c then
      (if prevCased then lowerA c else upperA c) :: pyTitleAux r true
    else c :: pyTitleAux r false

/-- Embeds `re.sub(r"\s+", " ", x).strip().title()` — the name normalization applied to
`source`/`target` in `extract_conversions` (main.py lines 190-192). -/
def normalize_name (s : String) : String :=
  ⟨pyTitleAux (pyStripL (collapseWsAux s.toList false)) false⟩

/-- ASCII-lowercased copy of a string (for stating case-insensitivity). -/
def lowerStr (s : String) : String := ⟨s.toList.map lowerA⟩

/-! ## Order-preserving first-occurrence deduplication

`collect_text_candidates` deduplicates its line list with a `seen`-set loop
(main.py lines 114-121) and `extract_conversions` deduplicates records through
an insertion-ordered dict keyed by a tuple (lines 193-199).  Both are the same
fold: keep an element iff no earlier kept element has the same key. -/

/-- The loop body: keep `r` iff no kept element shares its key. -/
def dedupStep {α β : Type} [DecidableEq β] (k : α → β) (acc : List α) (r : α) : List α :=
  if acc.any (fun a => k a = k r) then acc else acc ++ [r]

def dedupBy {α β : Type} [DecidableEq β] (k : α → β) (l : List α) : List α :=
  l.foldl (dedupStep k) []

/-- Reference recursion: keep the first occurrence of every key, in
first-occurrence order. -/
def firstOccursBy {α β : Type} [DecidableEq β] (k : α → β) : List α → List α
  | [] => []
  | a :: l => a :: firstOccursBy k (l.filter (fun x => !(k x = k a : Bool)))
termination_by l => l.length
decreasing_by
  simp only [List.length_cons]
  exact Nat.lt_succ_of_le (List.length_filter_le _ _)

/-! ## The parsed HTML document

Element/text node trees; a document is the top-level node list.  A handmade
mutual pair (`Node`/`NodeList`) keeps every traversal structurally recursive. -/

mutual
inductive Node : Type where
  | text : String → Node
  | elem : String → List (String × String) → NodeList → Node

inductive NodeList : Type where
  | nil : NodeList
  | cons : Node → NodeList → NodeList
end

/-- Build a `NodeList` from a `List Node` (notation convenience). -/
def nodesOf : List Node → NodeList
  | [] => .nil
  | n :: r => .cons n (nodesOf r)

mutual
/-- The descendant text-node strings of a node, in document order
(BeautifulSoup's `self.strings`). -/
def textBitsN : Node → List String
  | .text s => [s]
  | .elem _ _ ch => textBitsL ch

def textBitsL : NodeList → List String
  | .nil => []
  | .cons n r => textBitsN n ++ textBitsL r
end

/-- Embeds `tag.get_text(sep, strip=True)` : strip each text bit, drop the empty ones,
join with `sep`. -/
def getText (sep : String) (n : Node) : String :=
  String.intercalate sep (((textBitsN n).map pyStrip).filter (fun s => !(s = "" : Bool)))

mutual
/-- Embeds `soup.find_all(tags)` : descendant elements with a tag in `tags`, pre-order
(document order). -/
def findElemsN (tags : List String) : Node → List Node
  | .text _ => []
  | .elem tg a ch =>
    (if tg ∈ tags then [Node.elem tg a ch] else []) ++ findElemsL tags ch

def findElemsL (tags : List String) : NodeList → List Node
  | .nil => []
  | .cons n r => findElemsN tags n ++ findElemsL tags r
end

/-- Embeds `img.get(attr)` : attribute lookup. -/
def getAttr (attrs : List (String × String)) (name : String) : Option String :=
  (attrs.find? (fun p => p.1 = name)).map (·.2)

/-- The sibling-caption loop (main.py lines 109-113): the text of the first
following sibling element with non-empty text (`find_next_siblings` yields
elements only; siblings with empty text are passed over, and the loop breaks
at the first non-empty one). -/
def captionOf : NodeList → List String
  | .nil => []
  | .cons (.text _) r => captionOf r
  | .cons (.elem tg a ch) r =>
    if getText " " (.elem tg a ch) = "" then captionOf r
    else [getText " " (.elem tg a ch)]

/-- The per-image lines of the OCR branch (main.py lines 102-113): for each of
`alt`, `title`, `aria-label` in order, the stripped value when
`val and len(val.strip()) > 2`; then the caption from the next siblings of the
image's parent. -/
def imgLines (attrs : List (String × String)) (parentFollowers : NodeList) : List String :=
  (["alt", "title", "aria-label"].filterMap (fun a =>
    match getAttr attrs a with
    | some v => if 2 < (pyStrip v).length then some (pyStrip v) else none
    | none => none))
  ++ captionOf parentFollowers

mutual
/-- OCR traversal over one node.  `followers` are the nodes after this node
among its siblings (they become the parent-followers of its children, since
this node is its children's parent); `pf` are the followers of this node's own
parent, used for the caption lookup when this node is an `img`. -/
def ocrN : Node → NodeList → NodeList → List String
  | .text _, _, _ => []
  | .elem tg a ch, followers, pf =>
    (if tg = "img" then imgLines a pf else []) ++ ocrL ch followers

def ocrL : NodeList → NodeList → List String
  | .nil, _ => []
  | .cons n r, pf => ocrN n r pf ++ ocrL r pf
end

/-- The tags scanned by the main candidate loop (main.py line 96). -/
def candTags : List String := ["h1", "h2", "h3", "h4", "h5", "h6", "p", "li", "span", "div"]

/-- Embeds `collect_text_candidates(soup, ocr)` (main.py lines 93-121). -/
def collect_text_candidates (doc : NodeList) (ocr : Bool) : List String :=
  let tagL := (((findElemsL candTags doc).map (getText " ")).filter
    (fun t => !(t = "" : Bool) && decide (2 ≤ t.length)))
  let lines := tagL ++ (if ocr then ocrL doc .nil else [])
  dedupBy id lines

/-! ## The rate pattern matchers

`p_eq` (main.py line 162):
`(?P<a1>\d+(?:[.,]\d+)?)\s*(?:x|×)?\s*(?P<s>[A-Za-z][A-Za-z \-]*)\s*(?:=|=>|→|to)\s*(?P<a2>\d+(?:[.,]\d+)?)\s*(?P<t>[A-Za-z][A-Za-z \-]*)`

`p_ratio` (main.py line 165):
`(?P<s>[A-Za-z][A-Za-z \-]*)\s*(?:to|→|->|:)\n\s*(?P<t>[A-Za-z][A-Za-z \-]*)\s*[:\- ]\s*(?P<a1>\d+(?:[.,]\d+)?)\s*[:/]\s*(?P<a2>\d+(?:[.,]\d+)?)`

both compiled with `re.IGNORECASE`.  Each sub-pattern is compiled to a function
returning the list of its possible `(captured, rest)` splits in Python's
backtracking priority order; sequencing is the list monad's `bind`, so the head
of the final outcome list is exactly the match `re` produces. -/

/-- Character class of the name groups, `[A-Za-z \-]`. -/
def isNameChar (c : Char) : Bool := isAlphaAscii c || c = ' ' || c = '-'

/-- Class `\d` (the patterns only ever face ASCII digits through `\d+` here; Python's
unicode-decimal extension is irrelevant to every claim). -/
def isDigitCh (c : Char) : Bool := decide (48 ≤ c.toNat ∧ c.toNat ≤ 57)

/-- Maximal run of characters satisfying `p`, plus the remainder. -/
def takeRun (p : Char → Bool) : List Char → List Char × List Char
  | [] => ([], [])
  | c :: r =>
    if p c then
      let (a, b) := takeRun p r
      (c :: a, b)
    else ([], c :: r)

/-- All splits of `run ++ rest` that keep a prefix of `run`, longest first
(greedy order). -/
def splitsDesc (run rest : List Char) : List (List Char × List Char) :=
  (List.range (run.length + 1)).map
    (fun i => (run.take (run.length - i), run.drop (run.length - i) ++ rest))

/-- Greedy `p*`: candidate (matched, rest) splits, longest first. -/
def starOut (p : Char → Bool) (l : List Char) : List (List Char × List Char) :=
  let (run, rest) := takeRun p l
  splitsDesc run rest

/-- Greedy `p+`: like `starOut` but the match must be non-empty. -/
def plusOut (p : Char → Bool) (l : List Char) : List (List Char × List Char) :=
  (starOut p l).filter (fun a => !(a.1.isEmpty))

/-- Group `\d+(?:[.,]\d+)?` (a number group): digit run, then greedily an optional
decimal part introduced by `.` or `,`. -/
def numOut (l : List Char) : List (List Char × List Char) :=
  (plusOut isDigitCh l).flatMap (fun p =>
    (match p.2 with
     | c :: r2 =>
       if c = '.' || c = ',' then
         (plusOut isDigitCh r2).map (fun q => (p.1 ++ c :: q.1, q.2))
       else []
     | [] => [])
    ++ [p])

/-- Group `[A-Za-z][A-Za-z \-]*` (a name group). -/
def nameOut (l : List Char) : List (List Char × List Char) :=
  match l with
  | [] => []
  | c :: r =>
    if isAlphaAscii c then (starOut isNameChar r).map (fun q => (c :: q.1, q.2)) else []

/-- Case-insensitive literal. -/
def litCI (lit : List Char) (l : List Char) : List (List Char) :=
  match lit, l with
  | [], rest => [rest]
  | _, [] => []
  | c :: lit', x :: l' => if lowerA x = lowerA c then litCI lit' l' else []

/-- Group `(?:x|×)?` — greedy optional multiplier sign (case-insensitive `x`). -/
def xOut (l : List Char) : List (List Char) :=
  match l with
  | c :: r => if c = 'x' || c = 'X' || c = '×' then [r, l] else [l]
  | [] => [l]

/-- Group `(?:=|=>|→|to)` — the equality-form separator, alternatives in source
order. -/
def sepEqOut (l : List Char) : List (List Char) :=
  litCI ['='] l ++ litCI ['=', '>'] l ++ litCI ['→'] l ++ litCI ['t', 'o'] l

/-- Group `(?:to|→|->|:)` — the ratio-form separator, alternatives in source order. -/
def sepRatioOut (l : List Char) : List (List Char) :=
  litCI ['t', 'o'] l ++ litCI ['→'] l ++ litCI ['-', '>'] l ++ litCI [':'] l

/-- A single character from a class (e.g. `[:\- ]`, `[:/]`). -/
def classOut (cs : List Char) (l : List Char) : List (List Char) :=
  match l with
  | c :: r => if c ∈ cs then [r] else []
  | [] => []

/-- Captured groups of a `p_eq` match (group order `a1`, `s`, `a2`, `t`). -/
structure EqGroups where
  a1 : String
  s : String
  a2 : String
  t : String
deriving DecidableEq

/-- Captured groups of a `p_ratio` match (group order `s`, `t`, `a1`, `a2`). -/
structure RatioGroups where
  s : String
  t : String
  a1 : String
  a2 : String
deriving DecidableEq

/-- All matches of `p_eq` anchored at the head of `l`, in backtracking
priority order. -/
def matchEqAt (l : List Char) : List (EqGroups × List Char) :=
  (numOut l).flatMap fun a1p =>
  (starOut isSpacePy a1p.2).flatMap fun w1 =>
  (xOut w1.2).flatMap fun r3 =>
  (starOut isSpacePy r3).flatMap fun w2 =>
  (nameOut w2.2).flatMap fun sp =>
  (starOut isSpacePy sp.2).flatMap fun w3 =>
  (sepEqOut w3.2).flatMap fun r7 =>
  (starOut isSpacePy r7).flatMap fun w4 =>
  (numOut w4.2).flatMap fun a2p =>
  (starOut isSpacePy a2p.2).flatMap fun w5 =>
  (nameOut w5.2).map fun tp =>
  ({ a1 := ⟨a1p.1⟩, s := ⟨sp.1⟩, a2 := ⟨a2p.1⟩, t := ⟨tp.1⟩ }, tp.2)

/-- All matches of `p_ratio` anchored at the head of `l`, in backtracking
priority order. -/
def matchRatioAt (l : List Char) : List (RatioGroups × List Char) :=
  (nameOut l).flatMap fun sp =>
  (starOut isSpacePy sp.2).flatMap fun w1 =>
  (sepRatioOut w1.2).flatMap fun r3 =>
  (classOut ['\n'] r3).flatMap fun r4 =>
  (starOut isSpacePy r4).flatMap fun w2 =>
  (nameOut w2.2).flatMap fun tp =>
  (starOut isSpacePy tp.2).flatMap fun w3 =>
  (classOut [':', '-', ' '] w3.2).flatMap fun r8 =>
  (starOut isSpacePy r8).flatMap fun w4 =>
  (numOut w4.2).flatMap fun a1p =>
  (starOut isSpacePy a1p.2).flatMap fun w5 =>
  (classOut [':', '/'] w5.2).flatMap fun r12 =>
  (starOut isSpacePy r12).flatMap fun w6 =>
  (numOut w6.2).map fun a2p =>
  ({ s := ⟨sp.1⟩, t := ⟨tp.1⟩, a1 := ⟨a1p.1⟩, a2 := ⟨a2p.1⟩ }, a2p.2)

/-- Embeds `pattern.search(s)` : try each start position left to right (the empty
suffix included), return the first backtracking outcome at the first position
that matches. -/
def searchFrom {α : Type} (f : List Char → List (α × List Char)) : List Char → Option α
  | [] =>
    match f [] with
    | g :: _ => some g.1
    | [] => none
  | c :: r =>
    match f (c :: r) with
    | g :: _ => some g.1
    | [] => searchFrom f r

/-- Embeds `p_eq.search(line)`. -/
def p_eq_search (line : String) : Option EqGroups := searchFrom matchEqAt line.toList

/-- Embeds `p_ratio.search(line)`. -/
def p_ratio_search (line : String) : Option RatioGroups := searchFrom matchRatioAt line.toList

/-! ## `parse_rate_from_match` (main.py lines 124-153) -/

/-- A `re.Match` of one of the two rate patterns. -/
inductive RMatch : Type where
  | eq : EqGroups → RMatch
  | ratio : RatioGroups → RMatch
deriving DecidableEq

/-- Embeds `m.lastgroup` : the name of the last capture group that matched.  Every
group of both patterns is mandatory, so the last one to match is the final
group of the pattern: `"t"` (group 4 of `p_eq`) resp. `"a2"` (group 4 of
`p_ratio`). -/
def RMatch.lastgroup : RMatch → String
  | .eq _ => "t"
  | .ratio _ => "a2"

/-- Embeds `m.group(name)` : `none` stands for the `IndexError` of an unknown group
name. -/
def RMatch.group : RMatch → String → Option String
  | .eq g, n =>
    if n = "a1" then some g.a1 else if n = "s" then some g.s
    else if n = "a2" then some g.a2 else if n = "t" then some g.t else none
  | .ratio g, n =>
    if n = "s" then some g.s else if n = "t" then some g.t
    else if n = "a1" then some g.a1 else if n = "a2" then some g.a2 else none

/-- Digit list to natural number. -/
def digitsToNat (l : List Char) : Nat :=
  l.foldl (fun acc c => acc * 10 + (c.toNat - '0'.toNat)) 0

/-- Embeds `float(x.replace(",", "."))` for the strings the number groups can match
(`\d+` optionally followed by `.`/`,` and `\d+`); `none` embeds the
`ValueError` of any other shape. -/
def num (s : String) : Option ℚ :=
  let cs := s.toList.map (fun c => if c = ',' then '.' else c)
  let ip := cs.takeWhile (fun c => !(c = '.' : Bool))
  let rest := cs.dropWhile (fun c => !(c = '.' : Bool))
  if ip.all isDigitCh && !ip.isEmpty then
    match rest with
    | [] => some (digitsToNat ip : ℚ)
    | '.' :: fp =>
      if fp.all isDigitCh && !fp.isEmpty then
        some ((digitsToNat ip * 10 ^ fp.length + digitsToNat fp : ℚ) / 10 ^ fp.length)
      else none
    | _ => none
  else none

/-- Embeds `parse_rate_from_match(m)` : dispatch on `m.lastgroup`; `Except.error`
embeds a raised exception (caught by the caller's `except` clause). -/
def parse_rate_from_match (m : RMatch) : Except String (String × String × ℚ) :=
  if m.lastgroup = "eq" then
    match m.group "a1", m.group "s", m.group "a2", m.group "t" with
    | some a1s, some s, some a2s, some t =>
      match num a1s, num a2s with
      | some a1, some a2 =>
        if a1 = 0 then .error "zero source amount"
        else .ok (pyStrip s, pyStrip t, a2 / a1)
      | _, _ => .error "ValueError"
    | _, _, _, _ => .error "IndexError"
  else if m.lastgroup = "one" then
    match m.group "s", m.group "a2", m.group "t" with
    | some s, some a2s, some t =>
      match num a2s with
      | some a2 => .ok (pyStrip s, pyStrip t, a2)
      | none => .error "ValueError"
    | _, _, _ => .error "IndexError"
  else if m.lastgroup = "ratio" then
    match m.group "s", m.group "t", m.group "a1", m.group "a2" with
    | some s, some t, some a1s, some a2s =>
      match num a1s, num a2s with
      | some a1, some a2 =>
        if a1 = 0 then .error "zero source amount"
        else .ok (pyStrip s, pyStrip t, a2 / a1)
      | _, _ => .error "ValueError"
    | _, _, _, _ => .error "IndexError"
  else .error "unknown pattern"

/-! ## `extract_conversions` (main.py lines 156-199) -/

/-- The record dict appended for each successful parse (and, with `rate > 0`
required by `schemas.ConversionRecord`, the persisted shape). -/
structure ConvRec where
  source : String
  target : String
  rate : ℚ
  text : String
  page_url : String
  page_title : Option String
deriving DecidableEq

/-- The ratio-pattern arm of the per-line loop (main.py lines 180-187). -/
def tryRatioLine (url : String) (title : Option String) (line : String) : Option ConvRec :=
  match p_ratio_search line with
  | some g =>
    match parse_rate_from_match (.ratio g) with
    | .ok (s, t, rate) =>
      some { source := pyStrip s, target := pyStrip t, rate := rate,
             text := line, page_url := url, page_title := title }
    | .error _ => none
  | none => none

/-- The per-line loop body (main.py lines 169-187): try `p_eq`; a successful
parse appends and continues, a raised exception falls through to `p_ratio`. -/
def tryLine (url : String) (title : Option String) (line : String) : Option ConvRec :=
  match p_eq_search line with
  | some g =>
    match parse_rate_from_match (.eq g) with
    | .ok (s, t, rate) =>
      some { source := pyStrip s, target := pyStrip t, rate := rate,
             text := line, page_url := url, page_title := title }
    | .error _ => tryRatioLine url title line
  | none => tryRatioLine url title line

/-- The dedup key of main.py line 196. -/
def convKey (r : ConvRec) : String × String × String × ℚ :=
  (r.page_url, r.source, r.target, r.rate)

/-- The dict-based dedup of main.py lines 193-199: insertion-ordered mapping
keyed by `(page_url, source, target, rate)`, first write per key wins,
`list(uniq.values())` returns first-occurrence order. -/
def dedup_conversions (rs : List ConvRec) : List ConvRec :=
  dedupBy convKey rs

/-- Embeds `extract_conversions(url, title, html, ocr)` (main.py lines 156-199), on
the parsed document. -/
def extract_conversions (url : String) (title : Option String) (doc : NodeList)
    (ocr : Bool) : List ConvRec :=
  let lines := collect_text_candidates doc ocr
  let results := lines.filterMap (tryLine url title)
  let normalized := results.map (fun r =>
    { r with source := normalize_name r.source, target := normalize_name r.target })
  dedup_conversions normalized

/-! ## `extract_tables` (main.py lines 46-74) -/

/-- A direct child of a `<table>` that the extractor inspects: a `<thead>` with
its `<tr>` rows, a `<tbody>` with its rows, or a bare `<tr>`.  A row is the
list of its `th`/`td` cell texts (each cell modelled by its raw text content;
the code reads it with `get_text(strip=True)`). -/
inductive TableSection : Type where
  | thead : List (List String) → TableSection
  | tbody : List (List String) → TableSection
  | tr : List String → TableSection
deriving DecidableEq

/-- Embeds `schemas.TableData`. -/
structure TableData where
  headers : List String
  rows : List (List String)
deriving DecidableEq

/-- First `<thead>` of the table (`table.find("thead")`). -/
def firstThead : List TableSection → Option (List (List String))
  | [] => none
  | .thead rs :: _ => some rs
  | _ :: r => firstThead r

/-- First `<tbody>` of the table (`table.find("tbody")`). -/
def firstTbody : List TableSection → Option (List (List String))
  | [] => none
  | .tbody rs :: _ => some rs
  | _ :: r => firstTbody r

/-- All `<tr>` rows of the table in document order (`table.find_all("tr")`
descends into `thead`/`tbody`). -/
def allTrs (tbl : List TableSection) : List (List String) :=
  tbl.flatMap (fun s =>
    match s with
    | .thead rs => rs
    | .tbody rs => rs
    | .tr r => [r])

/-- The header extraction (main.py lines 50-60): first row of the first
`thead` if it yields cells, else the cells of the table's first `tr`. -/
def headersOf (tbl : List TableSection) : List String :=
  let h1 :=
    match firstThead tbl with
    | some trows =>
      match trows.head? with
      | some r => r.map pyStrip
      | none => []
    | none => []
  if h1 = [] then
    match (allTrs tbl).head? with
    | some r => r.map pyStrip
    | none => []
  else h1

/-- The body-row extraction (main.py lines 62-70): rows of the first `tbody`
(or, without one, every `tr` of the table), keeping non-empty cell lists that
do not duplicate the headers. -/
def rowsOf (tbl : List TableSection) : List (List String) :=
  (List.map (fun (r : List String) => r.map pyStrip)
    (match firstTbody tbl with
     | some rs => rs
     | none => allTrs tbl)).filter
    (fun cells =>
      !(cells.isEmpty) && !(!((headersOf tbl).isEmpty) && cells = headersOf tbl))

/-- Embeds `extract_tables(html)` (main.py lines 46-74), on the parsed tables. -/
def extract_tables (tables : List (List TableSection)) : List TableData :=
  tables.filterMap (fun tbl =>
    let h := headersOf tbl
    let rs := rowsOf tbl
    if !(h.isEmpty) || !(rs.isEmpty) then some ⟨h, rs⟩ else none)

/-! ## The `lastgroup` dispatch failure

`parse_rate_from_match` compares `m.lastgroup` against `"eq"`, `"one"` and
`"ratio"`, but the patterns' groups are named `a1`/`s`/`a2`/`t`: the last
matched group is `"t"` resp. `"a2"`, so every branch falls through to
`raise ValueError("unknown pattern")` and the orchestrator's `except` clauses
drop every match. -/

theorem parse_rate_from_match_unknown (m : RMatch) :
    parse_rate_from_match m = .error "unknown pattern" := by
  cases m <;> rfl

theorem tryRatioLine_eq_none (url : String) (title : Option String) (line : String) :
    tryRatioLine url title line = none := by
  unfold tryRatioLine
  cases p_ratio_search line with
  | none => rfl
  | some g => simp [parse_rate_from_match_unknown]

theorem tryLine_eq_none (url : String) (title : Option String) (line : String) :
    tryLine url title line = none := by
  unfold tryLine
  cases p_eq_search line with
  | none => exact tryRatioLine_eq_none url title line
  | some g => simp [parse_rate_from_match_unknown, tryRatioLine_eq_none]

theorem extract_conversions_eq_nil (url : String) (title : Option String)
    (doc : NodeList) (ocr : Bool) : extract_conversions url title doc ocr = [] := by
  have h : (collect_text_candidates doc ocr).filterMap (tryLine url title) = [] :=
    List.filterMap_eq_nil_iff.mpr (fun line _ => tryLine_eq_none url title line)
  unfold extract_conversions
  simp only [h, List.map_nil]
  rfl

/-- C1: Scenario A of the spec fails on the code.  With the candidate line
`"1 Gem = 100 Coins"` present (and matched by `p_eq` with groups
`a1="1"`, `s="Gem "`, `a2="100"`, `t="Coins"`), `extract_conversions` still
returns no record at all — in particular no
`{source:"Gem", target:"Coins", rate:100.0}` — because
`parse_rate_from_match` raises `ValueError("unknown pattern")` on every match
(the `m.lastgroup` dispatch never fires, see `C2`). -/
theorem C1_gem_line_produces_no_record :
    collect_text_candidates
        (nodesOf [Node.elem "p" [] (nodesOf [Node.text "1 Gem = 100 Coins"])]) false
      = ["1 Gem = 100 Coins"] ∧
    p_eq_search "1 Gem = 100 Coins" = some ⟨"1", "Gem ", "100", "Coins"⟩ ∧
    extract_conversions "https://example.com/shop" none
        (nodesOf [Node.elem "p" [] (nodesOf [Node.text "1 Gem = 100 Coins"])]) false
      = [] :=
  ⟨rfl, rfl, extract_conversions_eq_nil _ _ _ _⟩

/-- C2: `parse_rate_from_match` dispatches on `m.lastgroup`, which is `"t"`
for every `p_eq` match and `"a2"` for every `p_ratio` match, never
`"eq"`/`"one"`/`"ratio"`; every branch therefore raises
`ValueError("unknown pattern")`, the orchestrator's `except` clauses swallow
every match, and `extract_conversions` returns the empty list on every
input. -/
theorem C2_parse_always_fails_extract_always_empty :
    (∀ m : RMatch, m.lastgroup ≠ "eq" ∧ m.lastgroup ≠ "one" ∧ m.lastgroup ≠ "ratio" ∧
      parse_rate_from_match m = .error "unknown pattern") ∧
    (∀ (url : String) (title : Option String) (doc : NodeList) (ocr : Bool),
      extract_conversions url title doc ocr = []) :=
  ⟨fun m => by
    cases m with
    | eq g =>
      exact ⟨by simp [RMatch.lastgroup], by simp [RMatch.lastgroup],
        by simp [RMatch.lastgroup], parse_rate_from_match_unknown _⟩
    | ratio g =>
      exact ⟨by simp [RMatch.lastgroup], by simp [RMatch.lastgroup],
        by simp [RMatch.lastgroup], parse_rate_from_match_unknown _⟩,
   extract_conversions_eq_nil⟩

/-- C3: a line whose `p_eq` match has source amount `0` contributes nothing:
the per-line loop behaves exactly as if `p_eq` had not matched (it falls
through to the ratio arm) and no error reaches the caller; in particular a
page containing `"0 Gem = 50 Coins"` yields no record. -/
theorem C3_zero_source_amount_discarded (url : String) (title : Option String)
    (line : String) (g : EqGroups)
    (h1 : p_eq_search line = some g) (h2 : num g.a1 = some 0) :
    tryLine url title line = tryRatioLine url title line ∧
    extract_conversions url title
        (nodesOf [Node.elem "p" [] (nodesOf [Node.text "0 Gem = 50 Coins"])]) false
      = [] := by
  constructor
  · unfold tryLine
    rw [h1]
    simp [parse_rate_from_match_unknown]
  · exact extract_conversions_eq_nil _ _ _ _

/-- Witness for `C3_zero_source_amount_discarded` at the line
`"0 Gem = 50 Coins"`. -/
theorem C3_zero_source_amount_discarded_witness :
    tryLine "https://example.com/shop" none "0 Gem = 50 Coins"
      = tryRatioLine "https://example.com/shop" none "0 Gem = 50 Coins" ∧
    extract_conversions "https://example.com/shop" none
        (nodesOf [Node.elem "p" [] (nodesOf [Node.text "0 Gem = 50 Coins"])]) false
      = [] :=
  C3_zero_source_amount_discarded "https://example.com/shop" none "0 Gem = 50 Coins"
    ⟨"0", "Gem ", "50", "Coins"⟩ rfl (by decide)

/-- C4: every record of every `extract_conversions` output has `rate > 0`
(vacuously so: by `C2` the output list is always empty, so in particular no
record with `rate ≤ 0` is ever returned). -/
theorem C4_output_rates_positive (url : String) (title : Option String)
    (doc : NodeList) (ocr : Bool) :
    (extract_conversions url title doc ocr).all (fun r => decide (0 < r.rate)) = true := by
  rw [extract_conversions_eq_nil]
  rfl

/-! ## Properties of the first-occurrence dedup -/

theorem firstOccursBy_nil {α β : Type} [DecidableEq β] (k : α → β) :
    firstOccursBy k ([] : List α) = [] := by
  rw [firstOccursBy]

theorem firstOccursBy_cons {α β : Type} [DecidableEq β] (k : α → β) (a : α) (l : List α) :
    firstOccursBy k (a :: l)
      = a :: firstOccursBy k (l.filter (fun x => !(k x = k a : Bool))) := by
  rw [firstOccursBy]

theorem foldl_dedupStep {α β : Type} [DecidableEq β] (k : α → β) (rs : List α) :
    ∀ acc : List α,
      rs.foldl (dedupStep k) acc
        = acc ++ firstOccursBy k (rs.filter (fun r => !acc.any (fun a => (k a = k r : Bool)))) := by
  induction rs with
  | nil => intro acc; simp [firstOccursBy_nil]
  | cons r rest ih =>
    intro acc
    rw [List.foldl_cons, List.filter_cons]
    cases h : acc.any (fun a => (k a = k r : Bool)) with
    | true =>
      have hstep : dedupStep k acc r = acc := by simp [dedupStep, h]
      rw [hstep, ih acc]
      simp [h]
    | false =>
      have hstep : dedupStep k acc r = acc ++ [r] := by simp [dedupStep, h]
      have hfilter :
          rest.filter (fun x => !(acc ++ [r]).any (fun a => (k a = k x : Bool)))
            = (rest.filter (fun x => !acc.any (fun a => (k a = k x : Bool)))).filter
                (fun x => !(k x = k r : Bool)) := by
        rw [List.filter_filter]
        apply List.filter_congr
        intro x _
        simp only [List.any_append, List.any_cons, List.any_nil, Bool.or_false, Bool.not_or]
        rw [Bool.and_comm]
        congr 1
        simp [eq_comm]
      rw [hstep, ih (acc ++ [r]), hfilter]
      simp [h, firstOccursBy_cons]

theorem dedupBy_eq_firstOccursBy {α β : Type} [DecidableEq β] (k : α → β) (l : List α) :
    dedupBy k l = firstOccursBy k l := by
  have h := foldl_dedupStep k l []
  simpa [dedupBy, List.filter_true] using h

theorem mem_of_mem_firstOccursBy {α β : Type} [DecidableEq β] (k : α → β) :
    ∀ (l : List α) (x : α), x ∈ firstOccursBy k l → x ∈ l
  | [], x, h => by simp [firstOccursBy_nil] at h
  | a :: t, x, h => by
    rw [firstOccursBy_cons] at h
    rcases List.mem_cons.mp h with rfl | h'
    · exact List.mem_cons_self _ _
    · have hx := mem_of_mem_firstOccursBy k (t.filter (fun y => !(k y = k a : Bool))) x h'
      exact List.mem_cons_of_mem _ (List.mem_of_mem_filter hx)
termination_by l => l.length
decreasing_by
  simp only [List.length_cons]
  exact Nat.lt_succ_of_le (List.length_filter_le _ _)

theorem pairwise_firstOccursBy {α β : Type} [DecidableEq β] (k : α → β) :
    ∀ l : List α, (firstOccursBy k l).Pairwise (fun a b => k a ≠ k b)
  | [] => by simp [firstOccursBy_nil]
  | a :: t => by
    rw [firstOccursBy_cons]
    refine List.Pairwise.cons ?_ (pairwise_firstOccursBy k _)
    intro b hb
    have hbf := mem_of_mem_firstOccursBy k _ _ hb
    have hne := (List.mem_filter.mp hbf).2
    simp only [Bool.not_eq_true', decide_eq_false_iff_not] at hne
    exact fun hab => hne hab.symm
termination_by l => l.length
decreasing_by
  simp only [List.length_cons]
  exact Nat.lt_succ_of_le (List.length_filter_le _ _)

theorem pairwise_key_dedupBy {α β : Type} [DecidableEq β] (k : α → β) (l : List α) :
    (dedupBy k l).Pairwise (fun a b => k a ≠ k b) := by
  rw [dedupBy_eq_firstOccursBy]
  exact pairwise_firstOccursBy k l

theorem mem_of_mem_dedupBy {α β : Type} [DecidableEq β] (k : α → β) (l : List α) (x : α) :
    x ∈ dedupBy k l → x ∈ l := by
  rw [dedupBy_eq_firstOccursBy]
  exact mem_of_mem_firstOccursBy k l x

/-- C5: the normalizer/dedup step keeps, per `(page_url, source, target, rate)`
key, exactly the first-seen record, in first-occurrence order of key (it
coincides with the reference first-occurrence recursion `firstOccursBy`), and
when all records of the pass share one `page_url` — as every record built by
`extract_conversions` does — no two output records share the same
`(source, target, rate)` triple. -/
theorem C5_dedup_first_seen_per_key (rs : List ConvRec) (u : String)
    (hu : ∀ r ∈ rs, r.page_url = u) :
    dedup_conversions rs = firstOccursBy convKey rs ∧
    (dedup_conversions rs).Pairwise
      (fun a b => ¬(a.source = b.source ∧ a.target = b.target ∧ a.rate = b.rate)) := by
  refine ⟨dedupBy_eq_firstOccursBy convKey rs, ?_⟩
  have hp : (dedup_conversions rs).Pairwise (fun a b => convKey a ≠ convKey b) :=
    pairwise_key_dedupBy convKey rs
  refine List.Pairwise.imp_of_mem ?_ hp
  intro a b ha hb hk hstr
  rcases hstr with ⟨hs, ht, hr⟩
  apply hk
  have hau := hu a (mem_of_mem_dedupBy _ _ _ ha)
  have hbu := hu b (mem_of_mem_dedupBy _ _ _ hb)
  simp [convKey, hau, hbu, hs, ht, hr]

/-- Witness for `C5_dedup_first_seen_per_key` on a concrete three-record pass
(an exact duplicate plus a second rate for the same pair). -/
theorem C5_dedup_first_seen_per_key_witness :
    dedup_conversions
        [{ source := "Gem", target := "Coins", rate := 100, text := "1 Gem = 100 Coins",
           page_url := "https://example.com/shop", page_title := none },
         { source := "Gem", target := "Coins", rate := 100, text := "1 Gem = 100 Coins",
           page_url := "https://example.com/shop", page_title := none },
         { source := "Gem", target := "Coins", rate := 150, text := "1 Gem = 150 Coins",
           page_url := "https://example.com/shop", page_title := none }]
      = firstOccursBy convKey
        [{ source := "Gem", target := "Coins", rate := 100, text := "1 Gem = 100 Coins",
           page_url := "https://example.com/shop", page_title := none },
         { source := "Gem", target := "Coins", rate := 100, text := "1 Gem = 100 Coins",
           page_url := "https://example.com/shop", page_title := none },
         { source := "Gem", target := "Coins", rate := 150, text := "1 Gem = 150 Coins",
           page_url := "https://example.com/shop", page_title := none }] ∧
    (dedup_conversions
        [{ source := "Gem", target := "Coins", rate := 100, text := "1 Gem = 100 Coins",
           page_url := "https://example.com/shop", page_title := none },
         { source := "Gem", target := "Coins", rate := 100, text := "1 Gem = 100 Coins",
           page_url := "https://example.com/shop", page_title := none },
         { source := "Gem", target := "Coins", rate := 150, text := "1 Gem = 150 Coins",
           page_url := "https://example.com/shop", page_title := none }]).Pairwise
      (fun a b => ¬(a.source = b.source ∧ a.target = b.target ∧ a.rate = b.rate)) :=
  C5_dedup_first_seen_per_key _ "https://example.com/shop" (by decide)

/-- C6: counterexample.  Two records of one pass agreeing on
`(page_url, source, target)` but with different rates both survive the
per-pass dedup (its key includes the rate), so the pass output is NOT unique
by `(page_url, source, target)`, contradicting the claimed invariant and its
last-match-wins overwrite. -/
theorem C6_counterexample :
    dedup_conversions
        [{ source := "Gem", target := "Coins", rate := 100, text := "1 Gem = 100 Coins",
           page_url := "https://example.com/shop", page_title := none },
         { source := "Gem", target := "Coins", rate := 150, text := "1 Gem = 150 Coins",
           page_url := "https://example.com/shop", page_title := none }]
      = [{ source := "Gem", target := "Coins", rate := 100, text := "1 Gem = 100 Coins",
           page_url := "https://example.com/shop", page_title := none },
         { source := "Gem", target := "Coins", rate := 150, text := "1 Gem = 150 Coins",
           page_url := "https://example.com/shop", page_title := none }] ∧
    ¬ (dedup_conversions
        [{ source := "Gem", target := "Coins", rate := 100, text := "1 Gem = 100 Coins",
           page_url := "https://example.com/shop", page_title := none },
         { source := "Gem", target := "Coins", rate := 150, text := "1 Gem = 150 Coins",
           page_url := "https://example.com/shop", page_title := none }]).Pairwise
      (fun a b => ¬(a.page_url = b.page_url ∧ a.source = b.source ∧ a.target = b.target)) :=
  ⟨by decide, by decide⟩

/-- C6 (amended): within a single extraction pass the records are unique by
the full `(page_url, source, target, rate)` key — records sharing only
`(page_url, source, target)` but differing in rate all survive — and among
records sharing the full key the FIRST one wins (its `text` is kept;
first-match-wins, not last-match-wins; last-write-wins exists only in the
separate persistence merge keyed by `(page_url, source, target)`). -/
theorem C6_amended_first_wins_key_includes_rate :
    (∀ rs : List ConvRec,
      (dedup_conversions rs).Pairwise (fun a b => convKey a ≠ convKey b)) ∧
    dedup_conversions
        [{ source := "Gem", target := "Coins", rate := 100, text := "first form",
           page_url := "https://example.com/shop", page_title := none },
         { source := "Gem", target := "Coins", rate := 100, text := "second form",
           page_url := "https://example.com/shop", page_title := none }]
      = [{ source := "Gem", target := "Coins", rate := 100, text := "first form",
           page_url := "https://example.com/shop", page_title := none }] :=
  ⟨pairwise_key_dedupBy convKey, by decide⟩

/-! ## Case-insensitivity of the name normalization -/

theorem charToNat_ofNat_small (n : Nat) (h : n < 55296) : (Char.ofNat n).toNat = n := by
  unfold Char.ofNat
  rw [dif_pos (Or.inl h)]
  simp [Char.ofNatAux, Char.toNat, UInt32.toNat, BitVec.toNat_ofNatLt]

theorem toNat_lowerA_of_upper (c : Char) (h : 65 ≤ c.toNat ∧ c.toNat ≤ 90) :
    (lowerA c).toNat = c.toNat + 32 := by
  rw [lowerA, if_pos h]
  exact charToNat_ofNat_small _ (by omega)

theorem lowerA_of_not_upper (c : Char) (h : ¬(65 ≤ c.toNat ∧ c.toNat ≤ 90)) :
    lowerA c = c := by
  rw [lowerA, if_neg h]

theorem isSpacePy_lowerA (c : Char) : isSpacePy (lowerA c) = isSpacePy c := by
  by_cases h : 65 ≤ c.toNat ∧ c.toNat ≤ 90
  · unfold isSpacePy
    rw [toNat_lowerA_of_upper c h, decide_eq_decide]
    omega
  · rw [lowerA_of_not_upper c h]

theorem isAlphaAscii_lowerA (c : Char) : isAlphaAscii (lowerA c) = isAlphaAscii c := by
  by_cases h : 65 ≤ c.toNat ∧ c.toNat ≤ 90
  · unfold isAlphaAscii
    rw [toNat_lowerA_of_upper c h, decide_eq_decide]
    omega
  · rw [lowerA_of_not_upper c h]

theorem lowerA_lowerA (c : Char) : lowerA (lowerA c) = lowerA c := by
  by_cases h : 65 ≤ c.toNat ∧ c.toNat ≤ 90
  · apply lowerA_of_not_upper
    rw [toNat_lowerA_of_upper c h]
    omega
  · rw [lowerA_of_not_upper c h, lowerA_of_not_upper c h]

theorem upperA_lowerA (c : Char) : upperA (lowerA c) = upperA c := by
  by_cases h : 65 ≤ c.toNat ∧ c.toNat ≤ 90
  · have ht := toNat_lowerA_of_upper c h
    rw [upperA, if_pos (by rw [ht]; omega), ht, upperA, if_neg (by omega)]
    have : c.toNat + 32 - 32 = c.toNat := by omega
    rw [this, Char.ofNat_toNat]
  · rw [lowerA_of_not_upper c h]

theorem lowerA_of_not_alpha (c : Char) (h : isAlphaAscii c = false) : lowerA c = c := by
  apply lowerA_of_not_upper
  have := of_decide_eq_false h
  intro hc
  exact this (Or.inl hc)

theorem collapseWsAux_map_lowerA (l : List Char) (b : Bool) :
    collapseWsAux (l.map lowerA) b = (collapseWsAux l b).map lowerA := by
  induction l generalizing b with
  | nil => rfl
  | cons c r ih =>
    have hsp : lowerA ' ' = ' ' := rfl
    cases hc : isSpacePy c <;> cases b <;>
      simp [collapseWsAux, isSpacePy_lowerA, hc, ih, hsp]

theorem dropWhile_isSpacePy_map_lowerA (l : List Char) :
    (l.map lowerA).dropWhile isSpacePy = (l.dropWhile isSpacePy).map lowerA := by
  induction l with
  | nil => rfl
  | cons c r ih =>
    cases hc : isSpacePy c <;>
      simp [List.dropWhile_cons, isSpacePy_lowerA, hc, ih]

theorem pyStripL_map_lowerA (l : List Char) :
    pyStripL (l.map lowerA) = (pyStripL l).map lowerA := by
  unfold pyStripL
  rw [dropWhile_isSpacePy_map_lowerA, ← List.map_reverse, dropWhile_isSpacePy_map_lowerA,
    List.map_reverse]

theorem pyTitleAux_map_lowerA (l : List Char) (b : Bool) :
    pyTitleAux (l.map lowerA) b = pyTitleAux l b := by
  induction l generalizing b with
  | nil => rfl
  | cons c r ih =>
    cases hc : isAlphaAscii c with
    | false =>
      simp [pyTitleAux, isAlphaAscii_lowerA, hc, ih, lowerA_of_not_alpha c hc]
    | true =>
      cases b <;>
        simp [pyTitleAux, isAlphaAscii_lowerA, hc, ih, lowerA_lowerA, upperA_lowerA]

theorem normalize_name_lowerStr (s : String) :
    normalize_name (lowerStr s) = normalize_name s := by
  unfold normalize_name lowerStr
  rw [show (String.mk (s.toList.map lowerA)).toList = s.toList.map lowerA from rfl,
    collapseWsAux_map_lowerA, pyStripL_map_lowerA, pyTitleAux_map_lowerA]

/-! ## The spec's reading of title-case (refinement target for C7)

The specification defines title-case as: uppercase the first letter of each
WHITESPACE-separated word, lowercase the rest.  The following definitions
follow those words (they are the comparison point, not the code, which uses
Python `str.title`). -/

/-- Spec title-case of one word: first character uppercased, the rest
lowercased. -/
def specTitleWord : List Char → List Char
  | [] => []
  | c :: r => upperA c :: r.map lowerA

/-- Split on spaces (the collapsed/trimmed name has single internal spaces). -/
def splitWordsAux : List Char → List Char → List (List Char)
  | [], acc => if acc.isEmpty then [] else [acc.reverse]
  | c :: r, acc =>
    if c = ' ' then
      (if acc.isEmpty then splitWordsAux r [] else acc.reverse :: splitWordsAux r [])
    else splitWordsAux r (c :: acc)

/-- The claim's description of the name normalization: collapse internal
whitespace, trim, then capitalize the first letter of each
whitespace-separated word and lowercase the remaining letters of the word. -/
def spec_normalize_name (s : String) : String :=
  String.intercalate " "
    ((splitWordsAux (pyStripL (collapseWsAux s.toList false)) []).map
      (fun w => String.mk (specTitleWord w)))

/-- C7: counterexample.  On the hyphenated raw name `"dark-gem"` (hyphens are
admitted by the name character class and reachable through `p_eq`, as the
last conjunct shows) Python's `str.title()` — which starts a new word after
ANY non-letter, hyphens included — produces `"Dark-Gem"`, while the claim's
whitespace-word title-case produces `"Dark-gem"`: the code's normalization is
not the claimed one. -/
theorem C7_counterexample :
    normalize_name "dark-gem" ≠ spec_normalize_name "dark-gem" ∧
    normalize_name "dark-gem" = "Dark-Gem" ∧
    spec_normalize_name "dark-gem" = "Dark-gem" ∧
    p_eq_search "3 dark-gem = 9 coin" = some ⟨"3", "dark-gem ", "9", "coin"⟩ :=
  ⟨by decide, by decide, by decide, rfl⟩

/-- C7 (amended): the output names are the raw names with whitespace collapsed
to single spaces, trimmed, and Python-title-cased, where a letter is
uppercased exactly when the preceding character is not a letter (so hyphens
also start new words, e.g. `"dark-gem" → "Dark-Gem"`); raw names differing
only in ASCII letter case still canonicalize to the same name. -/
theorem C7_amended_python_title_case (s : String) :
    normalize_name (lowerStr s) = normalize_name s ∧
    normalize_name "dark-gem" = "Dark-Gem" ∧
    normalize_name "  gem   STONE " = "Gem Stone" :=
  ⟨normalize_name_lowerStr s, by decide, by decide⟩

/-! ## Candidate lines are non-empty (except for no length floor on captions) -/

theorem mem_captionOf_ne_empty : ∀ (pf : NodeList) (s : String), s ∈ captionOf pf → s ≠ ""
  | .nil, s, h => by simp [captionOf] at h
  | .cons (.text _) r, s, h => mem_captionOf_ne_empty r s (by simpa [captionOf] using h)
  | .cons (.elem tg a ch) r, s, h => by
    by_cases hs : getText " " (Node.elem tg a ch) = ""
    · rw [captionOf, if_pos hs] at h
      exact mem_captionOf_ne_empty r s h
    · rw [captionOf, if_neg hs] at h
      rcases List.mem_singleton.mp h with rfl
      exact hs

theorem length_pos_ne_empty (s : String) (h : 0 < s.length) : s ≠ "" := by
  intro he
  rw [he] at h
  exact absurd h (by decide)

theorem mem_imgLines_ne_empty (attrs : List (String × String)) (pf : NodeList)
    (s : String) (h : s ∈ imgLines attrs pf) : s ≠ "" := by
  unfold imgLines at h
  rcases List.mem_append.mp h with h | h
  · rcases List.mem_filterMap.mp h with ⟨a, _, ha⟩
    cases hg : getAttr attrs a with
    | none => rw [hg] at ha; exact absurd ha (by simp)
    | some v =>
      rw [hg] at ha
      dsimp only at ha
      by_cases hl : 2 < (pyStrip v).length
      · rw [if_pos hl] at ha
        rcases Option.some.inj ha with rfl
        exact length_pos_ne_empty _ (by omega)
      · rw [if_neg hl] at ha
        exact absurd ha (by simp)
  · exact mem_captionOf_ne_empty pf s h

mutual
theorem mem_ocrN_ne_empty :
    ∀ (n : Node) (f pf : NodeList) (s : String), s ∈ ocrN n f pf → s ≠ ""
  | .text _, _, _, s, h => by simp [ocrN] at h
  | .elem tg a ch, f, pf, s, h => by
    rw [ocrN] at h
    rcases List.mem_append.mp h with h | h
    · by_cases hi : tg = "img"
      · rw [if_pos hi] at h
        exact mem_imgLines_ne_empty a pf s h
      · rw [if_neg hi] at h
        exact absurd h (by simp)
    · exact mem_ocrL_ne_empty ch f s h

theorem mem_ocrL_ne_empty :
    ∀ (ns pf : NodeList) (s : String), s ∈ ocrL ns pf → s ≠ ""
  | .nil, _, s, h => by simp [ocrL] at h
  | .cons n r, pf, s, h => by
    rw [ocrL] at h
    rcases List.mem_append.mp h with h | h
    · exact mem_ocrN_ne_empty n r pf s h
    · exact mem_ocrL_ne_empty r pf s h
end

theorem mem_collect_text_candidates (doc : NodeList) (ocr : Bool) (s : String)
    (h : s ∈ collect_text_candidates doc ocr) :
    s ∈ (((findElemsL candTags doc).map (getText " ")).filter
          (fun t => !(t = "" : Bool) && decide (2 ≤ t.length)))
        ++ (if ocr then ocrL doc .nil else []) :=
  mem_of_mem_dedupBy id _ s h

/-- C8: counterexample.  With image metadata enabled, the sibling-caption
branch appends any non-empty caption text with NO length floor: a caption of
length 1 (`"X"`) reaches the output, so not every candidate has trimmed
length ≥ 2. -/
theorem C8_counterexample :
    collect_text_candidates
        (nodesOf [Node.elem "div" []
          (nodesOf [Node.elem "figure" [] (nodesOf [Node.elem "img" [] NodeList.nil]),
                    Node.elem "em" [] (nodesOf [Node.text "X"])])]) true
      = ["X"] ∧
    (collect_text_candidates
        (nodesOf [Node.elem "div" []
          (nodesOf [Node.elem "figure" [] (nodesOf [Node.elem "img" [] NodeList.nil]),
                    Node.elem "em" [] (nodesOf [Node.text "X"])])]) true).all
      (fun s => decide (2 ≤ (pyStrip s).length)) = false :=
  ⟨rfl, rfl⟩

/-- C8 (amended): the collector's output is duplicate-free by exact string
equality (first-occurrence order is kept by the `seen`-set loop, cf.
`dedupBy`/`firstOccursBy`) and every element is non-empty; the ≥ 2-character
floor holds for every candidate source except the image sibling-caption
branch — in particular it holds for the whole output whenever
`useImageMetadata` is off. -/
theorem C8_amended_nodup_nonempty :
    (∀ (doc : NodeList) (ocr : Bool),
      (collect_text_candidates doc ocr).Nodup ∧
      (collect_text_candidates doc ocr).all (fun s => !(s = "" : Bool)) = true) ∧
    (∀ doc : NodeList,
      (collect_text_candidates doc false).all (fun s => decide (2 ≤ s.length)) = true) := by
  constructor
  · intro doc ocr
    constructor
    · have hp := pairwise_key_dedupBy (id : String → String)
        ((((findElemsL candTags doc).map (getText " ")).filter
          (fun t => !(t = "" : Bool) && decide (2 ≤ t.length)))
          ++ (if ocr then ocrL doc .nil else []))
      simpa [id] using hp
    · rw [List.all_eq_true]
      intro s hs
      rcases List.mem_append.mp (mem_collect_text_candidates doc ocr s hs) with h | h
      · have := (List.mem_filter.mp h).2
        exact (Bool.and_elim_left this)
      · cases ocr with
        | false => exact absurd h (by simp)
        | true =>
          have := mem_ocrL_ne_empty doc .nil s (by simpa using h)
          simpa using this
  · intro doc
    rw [List.all_eq_true]
    intro s hs
    rcases List.mem_append.mp (mem_collect_text_candidates doc false s hs) with h | h
    · have := (List.mem_filter.mp h).2
      exact (Bool.and_elim_right this)
    · exact absurd h (by simp)

/-- C9: counterexample.  The image has `alt="GG"` — non-empty after trimming —
and a next-sibling element `<i>ImgSib</i>` inside the same `<span>`, yet the
code appends neither an `"GG"` candidate (its attribute guard requires
TRIMMED LENGTH > 2, not mere non-emptiness) nor the image-sibling text as
caption: the caption it appends, `"Cap Text"`, is the text of the first
next-sibling of the image's PARENT (`<figcaption>` after the `<span>`). -/
theorem C9_counterexample :
    collect_text_candidates
        (nodesOf [Node.elem "section" []
          (nodesOf [Node.elem "span" []
              (nodesOf [Node.elem "img" [("alt", "GG")] NodeList.nil,
                        Node.elem "i" [] (nodesOf [Node.text "ImgSib"])]),
            Node.elem "figcaption" [] (nodesOf [Node.text "Cap Text"])])]) true
      = ["ImgSib", "Cap Text"] ∧
    "GG" ∉ collect_text_candidates
        (nodesOf [Node.elem "section" []
          (nodesOf [Node.elem "span" []
              (nodesOf [Node.elem "img" [("alt", "GG")] NodeList.nil,
                        Node.elem "i" [] (nodesOf [Node.text "ImgSib"])]),
            Node.elem "figcaption" [] (nodesOf [Node.text "Cap Text"])])]) true :=
  ⟨rfl, by decide⟩

/-- C9 (amended): for each image, the `alt`, `title`, `aria-label` values are
appended in that order, each as its trimmed value and only when the trimmed
value has length > 2 (strictly more than two characters, not merely
non-empty); the caption candidate is the text of the first next-sibling
element OF THE IMAGE'S PARENT that has non-empty text (`captionOf` of the
parent's followers), as the concrete document of the second conjunct
shows. -/
theorem C9_amended_attr_threshold_parent_caption :
    (∀ (a t ar : String) (pf : NodeList),
      imgLines [("alt", a), ("title", t), ("aria-label", ar)] pf
        = (if 2 < (pyStrip a).length then [pyStrip a] else [])
          ++ ((if 2 < (pyStrip t).length then [pyStrip t] else [])
          ++ ((if 2 < (pyStrip ar).length then [pyStrip ar] else [])
          ++ captionOf pf))) ∧
    collect_text_candidates
        (nodesOf [Node.elem "section" []
          (nodesOf [Node.elem "section" []
              (nodesOf [Node.elem "img" [("alt", "Gold")] NodeList.nil]),
            Node.elem "figcaption" [] (nodesOf [Node.text "Cap Text"])])]) true
      = ["Gold", "Cap Text"] := by
  constructor
  · intro a t ar pf
    by_cases h1 : 2 < (pyStrip a).length <;> by_cases h2 : 2 < (pyStrip t).length <;>
      by_cases h3 : 2 < (pyStrip ar).length <;>
        simp [imgLines, getAttr, h1, h2, h3]
  · rfl

/-- C10: any body row whose stripped cell texts equal the extracted headers is
skipped, and the spec's Scenario F table — `thead` row `["Item","Price"]`,
body row `["Gem","10"]` — extracts to exactly
`{headers := ["Item","Price"], rows := [["Gem","10"]]}` (the header row that
`find_all("tr")` also visits is skipped as a header duplicate). -/
theorem C10_table_extraction (tbl : List TableSection)
    (hh : headersOf tbl ≠ []) :
    headersOf tbl ∉ rowsOf tbl ∧
    extract_tables [[TableSection.thead [["Item", "Price"]], TableSection.tr ["Gem", "10"]]]
      = [{ headers := ["Item", "Price"], rows := [["Gem", "10"]] }] := by
  constructor
  · intro hmem
    have hp := (List.mem_filter.mp hmem).2
    have h2 := Bool.and_elim_right hp
    rw [Bool.not_eq_true'] at h2
    simp only [decide_True, decide_eq_true_eq, Bool.and_eq_false_iff,
      Bool.not_eq_false'] at h2
    rcases h2 with h2 | h2
    · exact hh (List.isEmpty_iff.mp h2)
    · simp at h2
  · rfl

/-- Witness for `C10_table_extraction` at the Scenario F table itself. -/
theorem C10_table_extraction_witness :
    headersOf [TableSection.thead [["Item", "Price"]], TableSection.tr ["Gem", "10"]]
        ∉ rowsOf [TableSection.thead [["Item", "Price"]], TableSection.tr ["Gem", "10"]] ∧
    extract_tables [[TableSection.thead [["Item", "Price"]], TableSection.tr ["Gem", "10"]]]
      = [{ headers := ["Item", "Price"], rows := [["Gem", "10"]] }] :=
  C10_table_extraction [TableSection.thead [["Item", "Price"]], TableSection.tr ["Gem", "10"]]
    (by decide)
